import Mathlib

/-
Verification development for the goit-cs-hw-06 repository (src/src/main.py):
a static/form HTTP server (CatFramework) relaying POST bodies over UDP to a
listener that decodes url-encoded form data and persists it as documents.

Text is modelled as List Char (Python str), byte payloads as List Nat with
each entry < 256 in practice (Python bytes).
-/

namespace Hw06

/-- Characters of a Lean string literal, used to write Python str values. -/
def chars (s : String) : List Char := s.data

/-- Bytes of an ASCII string literal, used to write concrete datagrams. -/
def ascii (s : String) : List Nat := s.data.map Char.toNat

/-- Python str.split(sep) for a one-character separator: splitting the empty
string yields one empty piece, and consecutive separators yield empty pieces. -/
def splitOnChar (sep : Char) : List Char → List (List Char)
  | [] => [[]]
  | c :: cs =>
    match splitOnChar sep cs with
    | [] => [[]]
    | h :: t => if c = sep then [] :: h :: t else (c :: h) :: t

/-- Value of a hexadecimal digit character, as accepted by the percent-decoding
table of urllib.parse (both lowercase and uppercase letters). -/
def hexVal (c : Char) : Option Nat :=
  if '0' ≤ c ∧ c ≤ '9' then some (c.toNat - 48)
  else if 'a' ≤ c ∧ c ≤ 'f' then some (c.toNat - 87)
  else if 'A' ≤ c ∧ c ≤ 'F' then some (c.toNat - 55)
  else none

/-- Whether a byte is a UTF-8 continuation byte (0x80..0xBF). -/
def isCont (b : Nat) : Bool := 128 ≤ b && b ≤ 191

/-- The Unicode replacement character U+FFFD. -/
def replChar : Char := Char.ofNat 0xFFFD

/-- UTF-8 decoding with errors replaced by U+FFFD, models bytes.decode with
errors set to replace: each maximal invalid subpart becomes one replacement
character. Overlong encodings, surrogates and values above 0x10FFFF are
invalid, exactly as in CPython. -/
def utf8DecodeReplace : List Nat → List Char
  | [] => []
  | b :: rest =>
    if b < 128 then Char.ofNat b :: utf8DecodeReplace rest
    else if b < 194 then replChar :: utf8DecodeReplace rest
    else if b ≤ 223 then
      match rest with
      | [] => [replChar]
      | b2 :: rest2 =>
        if isCont b2 then Char.ofNat ((b - 192) * 64 + (b2 - 128)) :: utf8DecodeReplace rest2
        else replChar :: utf8DecodeReplace (b2 :: rest2)
    else if b ≤ 239 then
      match rest with
      | [] => [replChar]
      | b2 :: rest2 =>
        if (if b = 224 then 160 ≤ b2 && b2 ≤ 191
            else if b = 237 then 128 ≤ b2 && b2 ≤ 159
            else isCont b2) then
          match rest2 with
          | [] => [replChar]
          | b3 :: rest3 =>
            if isCont b3 then
              Char.ofNat ((b - 224) * 4096 + (b2 - 128) * 64 + (b3 - 128)) :: utf8DecodeReplace rest3
            else replChar :: utf8DecodeReplace (b3 :: rest3)
        else replChar :: utf8DecodeReplace (b2 :: rest2)
    else if b ≤ 244 then
      match rest with
      | [] => [replChar]
      | b2 :: rest2 =>
        if (if b = 240 then 144 ≤ b2 && b2 ≤ 191
            else if b = 244 then 128 ≤ b2 && b2 ≤ 143
            else isCont b2) then
          match rest2 with
          | [] => [replChar]
          | b3 :: rest3 =>
            if isCont b3 then
              match rest3 with
              | [] => [replChar]
              | b4 :: rest4 =>
                if isCont b4 then
                  Char.ofNat ((b - 240) * 262144 + (b2 - 128) * 4096 + (b3 - 128) * 64 + (b4 - 128))
                    :: utf8DecodeReplace rest4
                else replChar :: utf8DecodeReplace (b4 :: rest4)
            else replChar :: utf8DecodeReplace (b3 :: rest3)
        else replChar :: utf8DecodeReplace (b2 :: rest2)
    else replChar :: utf8DecodeReplace rest

/-- Strict UTF-8 decoding, models bytes.decode() with the default strict error
handler: any invalid sequence (including overlong forms, surrogates and values
above 0x10FFFF) raises UnicodeDecodeError, modelled as none. -/
def utf8DecodeStrict : List Nat → Option (List Char)
  | [] => some []
  | b :: rest =>
    if b < 128 then (utf8DecodeStrict rest).map (Char.ofNat b :: ·)
    else if b < 194 then none
    else if b ≤ 223 then
      match rest with
      | [] => none
      | b2 :: rest2 =>
        if isCont b2 then
          (utf8DecodeStrict rest2).map (Char.ofNat ((b - 192) * 64 + (b2 - 128)) :: ·)
        else none
    else if b ≤ 239 then
      match rest with
      | b2 :: b3 :: rest3 =>
        if (if b = 224 then 160 ≤ b2 && b2 ≤ 191
            else if b = 237 then 128 ≤ b2 && b2 ≤ 159
            else isCont b2) && isCont b3 then
          (utf8DecodeStrict rest3).map
            (Char.ofNat ((b - 224) * 4096 + (b2 - 128) * 64 + (b3 - 128)) :: ·)
        else none
      | _ => none
    else if b ≤ 244 then
      match rest with
      | b2 :: b3 :: b4 :: rest4 =>
        if (if b = 240 then 144 ≤ b2 && b2 ≤ 191
            else if b = 244 then 128 ≤ b2 && b2 ≤ 143
            else isCont b2) && isCont b3 && isCont b4 then
          (utf8DecodeStrict rest4).map
            (Char.ofNat ((b - 240) * 262144 + (b2 - 128) * 4096 + (b3 - 128) * 64 + (b4 - 128)) :: ·)
        else none
      | _ => none
    else none

/-- UTF-8 encoding of one scalar value, models str.encode() per character. -/
def utf8EncodeChar (c : Char) : List Nat :=
  let n := c.toNat
  if n < 128 then [n]
  else if n < 2048 then [192 + n / 64, 128 + n % 64]
  else if n < 65536 then [224 + n / 4096, 128 + n / 64 % 64, 128 + n % 64]
  else [240 + n / 262144, 128 + n / 4096 % 64, 128 + n / 64 % 64, 128 + n % 64]

/-- UTF-8 encoding of a string, models str.encode(). -/
def utf8Encode (s : List Char) : List Nat := (s.map utf8EncodeChar).flatten

/-- Scanner state for percent-decoding: either no escape in progress, a percent
sign just seen, or a percent sign and one hex digit seen (the digit character is
kept so an aborted escape can be re-emitted verbatim, as urllib.parse does). -/
inductive UnqState where
  | norm : UnqState
  | pct : UnqState
  | pctHex : Char → Nat → UnqState

/-- Scanner for urllib.parse.unquote with the replace error handler: acc holds
the bytes of the current maximal run of valid percent escapes; a run is flushed
through UTF-8 decoding-with-replacement when a literal character, an invalid
escape or the end of input is reached. Literal characters pass through; this is
extensionally the behaviour of urllib.parse.unquote because an ASCII literal
byte can never be a UTF-8 continuation byte, so it always ends a maximal
invalid subpart on its left. -/
def unquoteLoop (acc : List Nat) (st : UnqState) : List Char → List Char
  | [] =>
    match st with
    | .norm => utf8DecodeReplace acc
    | .pct => utf8DecodeReplace acc ++ ['%']
    | .pctHex c1 _ => utf8DecodeReplace acc ++ ['%', c1]
  | c :: rest =>
    match st with
    | .norm =>
      if c = '%' then unquoteLoop acc .pct rest
      else utf8DecodeReplace acc ++ c :: unquoteLoop [] .norm rest
    | .pct =>
      match hexVal c with
      | some a => unquoteLoop acc (.pctHex c a) rest
      | none =>
        if c = '%' then utf8DecodeReplace acc ++ '%' :: unquoteLoop [] .pct rest
        else utf8DecodeReplace acc ++ '%' :: c :: unquoteLoop [] .norm rest
    | .pctHex c1 a =>
      match hexVal c with
      | some b => unquoteLoop (acc ++ [16 * a + b]) .norm rest
      | none =>
        if c = '%' then utf8DecodeReplace acc ++ '%' :: c1 :: unquoteLoop [] .pct rest
        else utf8DecodeReplace acc ++ '%' :: c1 :: c :: unquoteLoop [] .norm rest

/-- urllib.parse.unquote_plus: replace every plus sign by a space, then
percent-decode (UTF-8, errors replaced). -/
def unquote_plus (s : List Char) : List Char :=
  unquoteLoop [] .norm (s.map (fun c => if c = '+' then ' ' else c))

/-- One piece of the split on the equals sign, with the tuple unpacking of the
dict comprehension: el.split on the equals sign must give exactly two parts
(key, value); any other arity raises ValueError, modelled as none. -/
def splitPair (el : List Char) : Option (List Char × List Char) :=
  match splitOnChar '=' el with
  | [k, v] => some (k, v)
  | _ => none

/-- Unpacks every ampersand-separated piece in order; the first piece that does
not split into exactly (key, value) raises ValueError, aborting the whole
comprehension with no result. -/
def parseAll : List (List Char) → Option (List (List Char × List Char))
  | [] => some []
  | el :: rest =>
    match splitPair el, parseAll rest with
    | some p, some ps => some (p :: ps)
    | _, _ => none

/-- The pair list built by the dict comprehension in
save_message_from_udp_data: split the unquoted text on the ampersand, then
unpack each piece at its equals signs. -/
def parsePairs (s : List Char) : Option (List (List Char × List Char)) :=
  parseAll (splitOnChar '&' s)

/-- A persisted document: an insertion-ordered association list of string
fields, matching the semantics of a Python dict of str keys and values. -/
abbrev Doc := List (List Char × List Char)

/-- Python dict assignment d[k] = v: an existing key keeps its position and
gets the new value, a new key is appended at the end. -/
def dictInsert : Doc → List Char → List Char → Doc
  | [], k, v => [(k, v)]
  | p :: rest, k, v => if p.1 = k then (k, v) :: rest else p :: dictInsert rest k v

/-- Python dict lookup d[k] as an Option. -/
def dictGet : Doc → List Char → Option (List Char)
  | [], _ => none
  | p :: rest, k => if p.1 = k then some p.2 else dictGet rest k

/-- The dict built from a pair list in order, so a repeated key ends up with
the value of its last occurrence (last write wins). -/
def dictOfPairs (ps : List (List Char × List Char)) : Doc :=
  ps.foldl (fun d p => dictInsert d p.1 p.2) []

/-- The value attached to the last occurrence of key k in a pair list. -/
def lastVal : List (List Char × List Char) → List Char → Option (List Char)
  | [], _ => none
  | p :: rest, k =>
    match lastVal rest k with
    | some v => some v
    | none => if p.1 = k then some p.2 else none

/-- A datetime.now() value, by components. -/
structure PyDateTime where
  year : Nat
  month : Nat
  day : Nat
  hour : Nat
  minute : Nat
  second : Nat
  microsecond : Nat
deriving DecidableEq

/-- One decimal digit character of n, at the given power-of-ten position. -/
def digitAt (n pow : Nat) : Char := Nat.digitChar (n / pow % 10)

/-- strftime with the fixed format of the source, zero-padded fields: four
digits of year, two of month, day, hour, minute and second, six of
microsecond, with the literal separators of "%Y-%m-%d %H:%M:%S.%f". Faithful
for the component ranges datetime guarantees (year below 10000 and so on). -/
def strftimeFixed (t : PyDateTime) : List Char :=
  [digitAt t.year 1000, digitAt t.year 100, digitAt t.year 10, digitAt t.year 1, '-',
   digitAt t.month 10, digitAt t.month 1, '-',
   digitAt t.day 10, digitAt t.day 1, ' ',
   digitAt t.hour 10, digitAt t.hour 1, ':',
   digitAt t.minute 10, digitAt t.minute 1, ':',
   digitAt t.second 10, digitAt t.second 1, '.',
   digitAt t.microsecond 100000, digitAt t.microsecond 10000, digitAt t.microsecond 1000,
   digitAt t.microsecond 100, digitAt t.microsecond 10, digitAt t.microsecond 1]

/-- The fixed timestamp shape YYYY-MM-DD HH:MM:SS.ffffff: every letter position
must hold a decimal digit and every other position the literal separator. -/
def matchesTimestampPattern (s : List Char) : Bool :=
  let tmpl := chars "YYYY-MM-DD HH:MM:SS.ffffff"
  s.length = tmpl.length &&
    (List.zip s tmpl).all (fun p => if p.2.isAlpha then p.1.isDigit else p.1 = p.2)

/-- The decode half of save_message_from_udp_data: decode the datagram bytes
strictly as UTF-8 text, unquote, split into pairs, build the dict and stamp the
date field with the formatted current time. A UnicodeDecodeError or an
unpacking ValueError aborts with none (the except branch of the source). -/
def decodeDatagram (data : List Nat) (now : List Char) : Option Doc :=
  match utf8DecodeStrict data with
  | none => none
  | some text =>
    match parsePairs (unquote_plus text) with
    | none => none
    | some ps => some (dictInsert (dictOfPairs ps) (chars "date") now)

/-- save_message_from_udp_data acting on the message collection, modelled as
the list of inserted documents in insertion order: a successful decode inserts
exactly one document, any caught exception leaves the collection unchanged
(the error is logged and swallowed). The store itself is modelled as
available; connectivity failures are likewise swallowed by the source. -/
def save_message_from_udp_data (db : List Doc) (data : List Nat) (now : List Char) : List Doc :=
  match decodeDatagram data now with
  | none => db
  | some doc => db ++ [doc]

/-- The receive loop of run_socket_server from a given collection state: each
datagram (with the timestamp taken at its processing instant) is handed
synchronously to save_message_from_udp_data, and the loop continues with the
next datagram whatever the outcome. -/
def processDatagrams (db : List Doc) (ds : List (List Nat × List Char)) : List Doc :=
  ds.foldl (fun db d => save_message_from_udp_data db d.1 d.2) db

/-- run_socket_server: the collection contents after receiving the given
sequence of datagrams, starting from an empty collection. -/
def run_socket_server (ds : List (List Nat × List Char)) : List Doc :=
  processDatagrams [] ds

/-- The characters before the first occurrence of c (the whole list when c is
absent), as in splitting off a fragment or query once. -/
def takeUntil (c : Char) (l : List Char) : List Char := l.takeWhile (fun x => x ≠ c)

/-- The parameter split of urlparse: when a semicolon occurs in the last
slash-separated segment (or anywhere, for a path with no slash), the path is
cut at that first semicolon of the segment. -/
def splitParams (p : List Char) : List Char :=
  if '/' ∈ p then
    let seg := (p.reverse.takeWhile (fun x => x ≠ '/')).reverse
    if ';' ∈ seg then p.take (p.length - seg.length) ++ takeUntil ';' seg else p
  else if ';' ∈ p then takeUntil ';' p else p

/-- A character allowed inside a URL scheme: ASCII alphanumerics, plus,
minus and dot, as in urllib.parse. -/
def isSchemeChar (c : Char) : Bool := c.isAlphanum || c = '+' || c = '-' || c = '.'

/-- The scheme split of urlsplit: when a colon occurs and everything before the
first colon is a scheme (non-empty, leading ASCII letter, scheme characters
only), the scheme and the colon are removed; otherwise the url is unchanged. -/
def splitScheme (url : List Char) : List Char :=
  let pre := url.takeWhile (fun c => c ≠ ':')
  if pre.length < url.length && (pre.headD ' ').isAlpha && pre.all isSchemeChar then
    url.drop (pre.length + 1)
  else url

/-- The netloc split of urlsplit: when the (scheme-stripped) url starts with
two slashes, the network location extends to the first slash, question mark or
hash after them and is removed together with the two slashes; the rest,
starting at that delimiter, is the path part. -/
def stripNetloc (url : List Char) : List Char :=
  if url.take 2 = ['/', '/'] then
    (url.drop 2).dropWhile (fun c => c ≠ '/' ∧ c ≠ '?' ∧ c ≠ '#')
  else url

/-- The path component of urlparse for an HTTP request target: the scheme is
split off at a leading scheme-and-colon, then a leading double slash starts a
netloc extending to the first slash, question mark or hash, then the fragment
is cut at the first hash, the query at the first question mark, and parameters
at a semicolon of the last segment. Request targets holding control
characters, whitespace or a bracketed netloc get extra cleaning or validation
from urllib.parse in some interpreter versions; theorems about routing take
hypotheses keeping the target inside this model. -/
def urlparsePath (url : List Char) : List Char :=
  splitParams (takeUntil '?' (takeUntil '#' (stripNetloc (splitScheme url))))

/-- An HTTP response as the handler builds it: the status of send_response, the
headers set by send_header, the body written to wfile. (The automatic Server
and Date headers of the library are not part of the handler's contract.) -/
structure HttpResponse where
  status : Nat
  headers : List (List Char × List Char)
  body : List Nat
deriving DecidableEq

/-- pathlib joinpath for one textual component: an empty component leaves the
path unchanged, an absolute component replaces it, anything else is appended
after a slash. -/
def joinpath (b r : List Char) : List Char :=
  if r = [] then b
  else if r.head? = some '/' then r
  else b ++ '/' :: r

/-- One filesystem entry: a regular file with its contents, or a directory.
Path.exists() is true for both, but open() succeeds only on a file and raises
IsADirectoryError on a directory. -/
inductive FsNode where
  | file : List Nat → FsNode
  | dir : FsNode
deriving DecidableEq

/-- The filesystem visible to the server, as a partial map from absolute path
text to entries; Path.exists is modelled as membership. -/
def Fs := List Char → Option FsNode

/-- The content-type table of mimetypes.guess_type is system configuration:
the built-in extension map is augmented from files such as /etc/mime.types at
init time, so the guessed type for a path is modelled as an explicit map from
path text to an optional type, exactly the shape of guess_type(filename)[0]. -/
def MimeMap := List Char → Option (List Char)

/-- send_html: status and a text/html content type, body read from the named
template under the templates directory. A missing template (or a directory in
its place) makes open raise after the status line and headers went out; the
crash truncates the exchange, modelled as none (no complete response). -/
def send_html (fs : Fs) (baseDir : List Char) (filename : List Char) (status : Nat) :
    Option HttpResponse :=
  match fs (joinpath (joinpath baseDir (chars "templates")) filename) with
  | some (FsNode.file content) =>
    some ⟨status, [(chars "Content-type", chars "text/html")], content⟩
  | _ => none

/-- send_static: status 200, content type guessed from the file name with
text/plain as fallback (the source's guess_type(filename)[0] or text/plain),
body equal to the file bytes. -/
def send_static (mime : MimeMap) (file : List Char) (content : List Nat) : HttpResponse :=
  ⟨200, [(chars "Content-type", (mime file).getD (chars "text/plain"))], content⟩

/-- do_GET: route on the parsed path; the root serves the index template; any
other path is resolved against the base directory (its leading slash
stripped): an existing regular file is served statically, a missing path gets
the error template with status 404, and an existing directory passes the
exists() test but open() then raises after the 200 status line and headers
went out, truncating the exchange (modelled as none, no complete response). -/
def do_GET (fs : Fs) (mime : MimeMap) (baseDir : List Char) (url : List Char) :
    Option HttpResponse :=
  let router := urlparsePath url
  if router = chars "/" then send_html fs baseDir (chars "index.html") 200
  else
    let file := joinpath baseDir (router.drop 1)
    match fs file with
    | some (FsNode.file content) => some (send_static mime file content)
    | some FsNode.dir => none
    | none => send_html fs baseDir (chars "error.html") 404

/-- do_POST: read Content-Length bytes of the body (zero when the header is
absent), decode them strictly as text, send one UDP datagram with the
re-encoded text to the relay target, and answer 302 with Location /. The
result pairs the datagram bytes with the response; a body that is not valid
text raises out of the handler, modelled as none (no datagram, no response).
The Content-Length value is taken as the number the source obtains from
int(headers.get(..., 0)). -/
def do_POST (contentLength : Option Nat) (body : List Nat) :
    Option (List Nat × HttpResponse) :=
  let size := contentLength.getD 0
  match utf8DecodeStrict (body.take size) with
  | none => none
  | some data => some (utf8Encode data, ⟨302, [(chars "Location", chars "/")], []⟩)

/-- The wire text of a pair list: pieces key=value joined by ampersands,
the shape of an application/x-www-form-urlencoded body. -/
def encodeForm : List (List Char × List Char) → List Char
  | [] => []
  | [p] => p.1 ++ '=' :: p.2
  | p :: rest => p.1 ++ '=' :: p.2 ++ '&' :: encodeForm rest

theorem unquoteLoop_norm_id (l : List Char) (h : '%' ∉ l) :
    unquoteLoop [] .norm l = l := by
  induction l with
  | nil => rfl
  | cons c rest ih =>
    have hc : c ≠ '%' := fun hc => h (hc ▸ List.mem_cons_self c rest)
    have hr : '%' ∉ rest := fun hm => h (List.mem_cons_of_mem c hm)
    simp [unquoteLoop, hc, ih hr, utf8DecodeReplace]

theorem unquote_plus_id (l : List Char) (hp : '+' ∉ l) (hpc : '%' ∉ l) :
    unquote_plus l = l := by
  have hmap : l.map (fun c => if c = '+' then ' ' else c) = l := by
    have := List.map_congr_left (l := l) (f := fun c => if c = '+' then ' ' else c) (g := id)
      (fun c hc => by
        have hne : c ≠ '+' := fun h => hp (h ▸ hc)
        simp [hne])
    simpa using this
  rw [unquote_plus, hmap, unquoteLoop_norm_id l hpc]

theorem splitOnChar_ne_nil (sep : Char) (l : List Char) : splitOnChar sep l ≠ [] := by
  cases l with
  | nil => simp [splitOnChar]
  | cons c cs =>
    simp only [splitOnChar]
    cases h : splitOnChar sep cs with
    | nil => simp
    | cons a b =>
      by_cases hc : c = sep <;> simp [hc]

theorem splitOnChar_not_mem (sep : Char) (l : List Char) (h : sep ∉ l) :
    splitOnChar sep l = [l] := by
  induction l with
  | nil => rfl
  | cons c cs ih =>
    have hc : c ≠ sep := fun hc => h (hc ▸ List.mem_cons_self c cs)
    have hcs : sep ∉ cs := fun hm => h (List.mem_cons_of_mem c hm)
    simp only [splitOnChar, ih hcs]
    simp [hc]

theorem splitOnChar_append (sep : Char) (a b : List Char) (h : sep ∉ a) :
    splitOnChar sep (a ++ sep :: b) = a :: splitOnChar sep b := by
  induction a with
  | nil =>
    simp only [List.nil_append, splitOnChar]
    cases hb : splitOnChar sep b with
    | nil => exact absurd hb (splitOnChar_ne_nil sep b)
    | cons x y => simp
  | cons c cs ih =>
    have hc : c ≠ sep := fun hc => h (hc ▸ List.mem_cons_self c cs)
    have hcs : sep ∉ cs := fun hm => h (List.mem_cons_of_mem c hm)
    simp only [List.cons_append, splitOnChar, List.append_eq]
    rw [ih hcs]
    simp [hc]

theorem splitPair_pair (k v : List Char) (hk : '=' ∉ k) (hv : '=' ∉ v) :
    splitPair (k ++ '=' :: v) = some (k, v) := by
  rw [splitPair, splitOnChar_append '=' k v hk, splitOnChar_not_mem '=' v hv]

theorem splitPair_no_eq (el : List Char) (h : '=' ∉ el) : splitPair el = none := by
  rw [splitPair, splitOnChar_not_mem '=' el h]

theorem splitOnChar_length (sep : Char) (l : List Char) :
    (splitOnChar sep l).length = l.count sep + 1 := by
  induction l with
  | nil => rfl
  | cons c cs ih =>
    simp only [splitOnChar]
    cases h : splitOnChar sep cs with
    | nil => exact absurd h (splitOnChar_ne_nil sep cs)
    | cons a b =>
      rw [h] at ih
      dsimp only
      by_cases hc : c = sep
      · subst hc
        rw [if_pos rfl, List.count_cons_self]
        simp only [List.length_cons] at ih ⊢
        omega
      · rw [if_neg hc, List.count_cons_of_ne (fun hy => hc hy.symm)]
        simp only [List.length_cons] at ih ⊢
        omega

theorem splitPair_two_eq (el : List Char) (h : 2 ≤ el.count '=') : splitPair el = none := by
  have hlen : 3 ≤ (splitOnChar '=' el).length := by
    rw [splitOnChar_length]
    omega
  rw [splitPair]
  cases hs : splitOnChar '=' el with
  | nil => rfl
  | cons a b =>
    cases b with
    | nil => rfl
    | cons x y =>
      cases y with
      | nil =>
        exfalso
        rw [hs] at hlen
        simp at hlen
      | cons u w => rfl

theorem parseAll_none_of_mem (els : List (List Char)) (el : List Char)
    (h : el ∈ els) (hb : splitPair el = none) : parseAll els = none := by
  induction els with
  | nil => cases h
  | cons x rest ih =>
    rcases List.mem_cons.mp h with h1 | h2
    · subst h1
      simp [parseAll, hb]
    · simp [parseAll, ih h2]

theorem mem_encodeForm (ps : List (List Char × List Char)) (c : Char)
    (h : c ∈ encodeForm ps) :
    c = '=' ∨ c = '&' ∨ ∃ p ∈ ps, c ∈ p.1 ∨ c ∈ p.2 := by
  induction ps with
  | nil => cases h
  | cons p rest ih =>
    cases rest with
    | nil =>
      rw [encodeForm] at h
      rcases List.mem_append.mp h with h1 | h2
      · exact Or.inr (Or.inr ⟨p, List.mem_cons_self p [], Or.inl h1⟩)
      · rcases List.mem_cons.mp h2 with h3 | h4
        · exact Or.inl h3
        · exact Or.inr (Or.inr ⟨p, List.mem_cons_self p [], Or.inr h4⟩)
    | cons q rest2 =>
      have hshape : encodeForm (p :: q :: rest2) =
          (p.1 ++ '=' :: p.2) ++ '&' :: encodeForm (q :: rest2) := by
        simp [encodeForm]
      rw [hshape] at h
      rcases List.mem_append.mp h with h1 | h2
      · rcases List.mem_append.mp h1 with h3 | h4
        · exact Or.inr (Or.inr ⟨p, List.mem_cons_self p (q :: rest2), Or.inl h3⟩)
        · rcases List.mem_cons.mp h4 with h5 | h6
          · exact Or.inl h5
          · exact Or.inr (Or.inr ⟨p, List.mem_cons_self p (q :: rest2), Or.inr h6⟩)
      · rcases List.mem_cons.mp h2 with h7 | h8
        · exact Or.inr (Or.inl h7)
        · rcases ih h8 with ha | hb | ⟨r, hr, hc⟩
          · exact Or.inl ha
          · exact Or.inr (Or.inl hb)
          · exact Or.inr (Or.inr ⟨r, List.mem_cons_of_mem p hr, hc⟩)

theorem parsePairs_encodeForm (ps : List (List Char × List Char)) (hne : ps ≠ [])
    (h : ∀ p ∈ ps, '=' ∉ p.1 ∧ '=' ∉ p.2 ∧ '&' ∉ p.1 ∧ '&' ∉ p.2) :
    parsePairs (encodeForm ps) = some ps := by
  induction ps with
  | nil => exact absurd rfl hne
  | cons p rest ih =>
    obtain ⟨he1, he2, ha1, ha2⟩ := h p (List.mem_cons_self p rest)
    cases rest with
    | nil =>
      have hnoamp : '&' ∉ p.1 ++ '=' :: p.2 := by
        simp [List.mem_append, ha1, ha2]
      rw [encodeForm, parsePairs, splitOnChar_not_mem '&' _ hnoamp, parseAll,
        splitPair_pair p.1 p.2 he1 he2, parseAll]
    | cons q rest2 =>
      have hnoamp : '&' ∉ p.1 ++ '=' :: p.2 := by
        simp [List.mem_append, ha1, ha2]
      have hshape : encodeForm (p :: q :: rest2) =
          (p.1 ++ '=' :: p.2) ++ '&' :: encodeForm (q :: rest2) := by
        simp [encodeForm]
      rw [parsePairs, hshape, splitOnChar_append '&' _ _ hnoamp, parseAll,
        splitPair_pair p.1 p.2 he1 he2]
      have hrest := ih (by simp) (fun r hr => h r (List.mem_cons_of_mem p hr))
      rw [parsePairs] at hrest
      rw [hrest]

theorem dictGet_dictInsert (d : Doc) (k v k2 : List Char) :
    dictGet (dictInsert d k v) k2 = if k2 = k then some v else dictGet d k2 := by
  induction d with
  | nil =>
    simp only [dictInsert, dictGet]
    by_cases h : k = k2
    · rw [if_pos h, if_pos h.symm]
    · rw [if_neg h, if_neg (fun hh : k2 = k => h hh.symm)]
  | cons p rest ih =>
    simp only [dictInsert]
    by_cases hp : p.1 = k
    · rw [if_pos hp]
      simp only [dictGet]
      by_cases h : k = k2
      · rw [if_pos h, if_pos h.symm]
      · rw [if_neg h, if_neg (fun hh : k2 = k => h hh.symm),
          if_neg (fun hh : p.1 = k2 => h (hp.symm.trans hh))]
    · rw [if_neg hp]
      simp only [dictGet]
      by_cases h2 : p.1 = k2
      · rw [if_pos h2, if_neg (fun hh : k2 = k => hp (h2.trans hh)), if_pos h2]
      · simp only [if_neg h2]
        exact ih

theorem dictGet_foldl (ps : List (List Char × List Char)) (d : Doc) (k : List Char) :
    dictGet (ps.foldl (fun d p => dictInsert d p.1 p.2) d) k =
      match lastVal ps k with
      | some v => some v
      | none => dictGet d k := by
  induction ps generalizing d with
  | nil => simp [lastVal]
  | cons p rest ih =>
    simp only [List.foldl_cons, lastVal]
    rw [ih]
    cases hl : lastVal rest k with
    | some v => rfl
    | none =>
      rw [dictGet_dictInsert]
      by_cases h : k = p.1
      · rw [if_pos h, if_pos h.symm]
      · rw [if_neg h, if_neg (fun hh : p.1 = k => h hh.symm)]

theorem dictGet_dictOfPairs (ps : List (List Char × List Char)) (k : List Char) :
    dictGet (dictOfPairs ps) k = lastVal ps k := by
  rw [dictOfPairs, dictGet_foldl]
  cases lastVal ps k with
  | some v => rfl
  | none => rfl

theorem lastVal_isSome_of_mem (ps : List (List Char × List Char)) (k : List Char)
    (h : k ∈ ps.map Prod.fst) : (lastVal ps k).isSome = true := by
  induction ps with
  | nil => cases h
  | cons p rest ih =>
    simp only [List.map_cons, List.mem_cons] at h
    simp only [lastVal]
    cases hl : lastVal rest k with
    | some v => rfl
    | none =>
      rcases h with h1 | h2
      · simp [h1.symm]
      · have := ih h2
        rw [hl] at this
        simp at this

theorem digitAt_isDigit (n pow : Nat) : (digitAt n pow).isDigit = true := by
  have hlt : n / pow % 10 < 10 := Nat.mod_lt _ (by norm_num)
  rw [digitAt]
  revert hlt
  generalize n / pow % 10 = m
  intro hlt
  interval_cases m <;> decide

theorem strftimeFixed_pattern (t : PyDateTime) :
    matchesTimestampPattern (strftimeFixed t) = true := by
  simp [matchesTimestampPattern, strftimeFixed, chars, digitAt_isDigit]

/-- C10: the empty datagram payload decodes to the empty text, whose split
yields the single empty pair with no equals separator, so the decode fails, no
document is inserted, and the listener loop continues with the remaining
datagrams unaffected. -/
theorem empty_datagram_rejected (db : List Doc) (now : List Char)
    (rest : List (List Nat × List Char)) :
    decodeDatagram [] now = none ∧
    save_message_from_udp_data db [] now = db ∧
    processDatagrams db (([], now) :: rest) = processDatagrams db rest :=
  ⟨rfl, rfl, rfl⟩

/-- C3: a datagram whose decoded text has an ampersand-separated piece with no
equals sign aborts the whole record: nothing is inserted (no partial insert of
the well-formed pairs) and the listener goes on to process the rest of the
datagram sequence from an unchanged collection state. -/
theorem malformed_pair_aborts_record (db : List Doc) (data : List Nat)
    (now text el : List Char) (rest : List (List Nat × List Char))
    (hdec : utf8DecodeStrict data = some text)
    (hel : el ∈ splitOnChar '&' (unquote_plus text))
    (hne : '=' ∉ el) :
    decodeDatagram data now = none ∧
    save_message_from_udp_data db data now = db ∧
    processDatagrams db ((data, now) :: rest) = processDatagrams db rest := by
  have hpp : parsePairs (unquote_plus text) = none :=
    parseAll_none_of_mem _ el hel (splitPair_no_eq el hne)
  have hdd : decodeDatagram data now = none := by
    simp only [decodeDatagram, hdec, hpp]
  have hsave : save_message_from_udp_data db data now = db := by
    simp only [save_message_from_udp_data, hdd]
  refine ⟨hdd, hsave, ?_⟩
  simp only [processDatagrams, List.foldl_cons]
  rw [show save_message_from_udp_data db (data, now).1 (data, now).2 = db from hsave]

theorem malformed_pair_aborts_record_witness :
    decodeDatagram (ascii "novalue&k=v") (chars "T") = none ∧
    save_message_from_udp_data [] (ascii "novalue&k=v") (chars "T") = [] ∧
    processDatagrams [] [(ascii "novalue&k=v", chars "T"), (ascii "a=b", chars "U")] =
      processDatagrams [] [(ascii "a=b", chars "U")] :=
  malformed_pair_aborts_record [] (ascii "novalue&k=v") (chars "T")
    (chars "novalue&k=v") (chars "novalue") [(ascii "a=b", chars "U")]
    (by decide) (by decide) (by decide)

/-- C2 counterexample: the payload k=a=b, whose single pair has a value
containing an equals sign, does not decode to a record mapping k to a=b: the
source splits on every equals sign and the tuple unpacking of three pieces
raises ValueError, so the decode produces nothing at all. -/
theorem first_equals_split_counterexample :
    decodeDatagram (ascii "k=a=b") (chars "T") = none ∧
    save_message_from_udp_data [] (ascii "k=a=b") (chars "T") = [] := by
  decide

/-- C2 amended: the decoder URL-unescapes the payload (plus as space), splits
on the ampersand, and splits each piece on every equals sign, requiring exactly
one per piece: a piece holding two or more equals signs makes the whole decode
fail with ValueError and no document is stored. -/
theorem decode_aborts_on_extra_equals (db : List Doc) (data : List Nat)
    (now text el : List Char)
    (hdec : utf8DecodeStrict data = some text)
    (hel : el ∈ splitOnChar '&' (unquote_plus text))
    (hcount : 2 ≤ el.count '=') :
    decodeDatagram data now = none ∧
    save_message_from_udp_data db data now = db := by
  have hpp : parsePairs (unquote_plus text) = none :=
    parseAll_none_of_mem _ el hel (splitPair_two_eq el hcount)
  have hdd : decodeDatagram data now = none := by
    simp only [decodeDatagram, hdec, hpp]
  exact ⟨hdd, by simp only [save_message_from_udp_data, hdd]⟩

theorem decode_aborts_on_extra_equals_witness :
    decodeDatagram (ascii "k=a=b") (chars "T2") = none ∧
    save_message_from_udp_data [] (ascii "k=a=b") (chars "T2") = [] :=
  decode_aborts_on_extra_equals [] (ascii "k=a=b") (chars "T2")
    (chars "k=a=b") (chars "k=a=b") (by decide) (by decide) (by decide)

/-- C4: every successfully decoded datagram is persisted with a date field
equal to the timestamp injected at decode time (overwriting any client value,
since the injection is the final dict assignment), and that timestamp matches
the fixed pattern YYYY-MM-DD HH:MM:SS.ffffff. -/
theorem date_field_injected (data : List Nat) (t : PyDateTime) (doc : Doc)
    (h : decodeDatagram data (strftimeFixed t) = some doc) :
    dictGet doc (chars "date") = some (strftimeFixed t) ∧
    matchesTimestampPattern (strftimeFixed t) = true := by
  refine ⟨?_, strftimeFixed_pattern t⟩
  cases hd : utf8DecodeStrict data with
  | none =>
    simp only [decodeDatagram, hd] at h
    exact absurd h (by simp)
  | some text =>
    cases hp : parsePairs (unquote_plus text) with
    | none =>
      simp only [decodeDatagram, hd, hp] at h
      exact absurd h (by simp)
    | some ps =>
      simp only [decodeDatagram, hd, hp, Option.some.injEq] at h
      rw [← h, dictGet_dictInsert, if_pos rfl]

/-- C8: a payload made of well-formed pairs that repeats a key decodes
successfully, one document is persisted, and the repeated key (when it is not
the reserved date key) carries the value of its last occurrence in the payload:
last write wins, silently, with no schema check on the keys. -/
theorem duplicate_keys_last_write_wins (db : List Doc) (data : List Nat)
    (now k : List Char) (ps : List (List Char × List Char))
    (hdec : utf8DecodeStrict data = some (encodeForm ps))
    (hne : ps ≠ [])
    (hcs : ∀ p ∈ ps, ('=' ∉ p.1 ∧ '=' ∉ p.2 ∧ '&' ∉ p.1 ∧ '&' ∉ p.2) ∧
      ('+' ∉ p.1 ∧ '+' ∉ p.2 ∧ '%' ∉ p.1 ∧ '%' ∉ p.2))
    (hdup : 2 ≤ (ps.map Prod.fst).count k)
    (hkd : k ≠ chars "date") :
    ∃ doc, decodeDatagram data now = some doc ∧
      save_message_from_udp_data db data now = db ++ [doc] ∧
      dictGet doc k = lastVal ps k ∧ (lastVal ps k).isSome = true := by
  have hplus : '+' ∉ encodeForm ps := by
    intro hm
    rcases mem_encodeForm ps '+' hm with h | h | ⟨p, hp, hmem⟩
    · exact absurd h (by decide)
    · exact absurd h (by decide)
    · rcases hmem with h1 | h2
      · exact ((hcs p hp).2.1) h1
      · exact ((hcs p hp).2.2.1) h2
  have hpct : '%' ∉ encodeForm ps := by
    intro hm
    rcases mem_encodeForm ps '%' hm with h | h | ⟨p, hp, hmem⟩
    · exact absurd h (by decide)
    · exact absurd h (by decide)
    · rcases hmem with h1 | h2
      · exact ((hcs p hp).2.2.2.1) h1
      · exact ((hcs p hp).2.2.2.2) h2
  have hid : unquote_plus (encodeForm ps) = encodeForm ps :=
    unquote_plus_id _ hplus hpct
  have hpp : parsePairs (encodeForm ps) = some ps :=
    parsePairs_encodeForm ps hne (fun p hp => (hcs p hp).1)
  have hdd : decodeDatagram data now =
      some (dictInsert (dictOfPairs ps) (chars "date") now) := by
    simp only [decodeDatagram, hdec, hid, hpp]
  refine ⟨dictInsert (dictOfPairs ps) (chars "date") now, hdd, ?_, ?_, ?_⟩
  · simp only [save_message_from_udp_data, hdd]
  · rw [dictGet_dictInsert, if_neg hkd, dictGet_dictOfPairs]
  · refine lastVal_isSome_of_mem ps k (List.count_pos_iff.mp ?_)
    omega

theorem duplicate_keys_last_write_wins_witness :
    ∃ doc, decodeDatagram (ascii "k=1&k=2") (chars "T3") = some doc ∧
      save_message_from_udp_data [] (ascii "k=1&k=2") (chars "T3") = [] ++ [doc] ∧
      dictGet doc (chars "k") =
        lastVal [(chars "k", chars "1"), (chars "k", chars "2")] (chars "k") ∧
      (lastVal [(chars "k", chars "1"), (chars "k", chars "2")] (chars "k")).isSome = true :=
  duplicate_keys_last_write_wins [] (ascii "k=1&k=2") (chars "T3") (chars "k")
    [(chars "k", chars "1"), (chars "k", chars "2")]
    (by decide) (by decide) (by decide) (by decide) (by decide)

/-- C1 counterexample: the payload k=a+b&m=n satisfies every constraint of the
claim (non-empty keys and values, no equals or ampersand characters, decodable)
yet the persisted document does not hold the field value a+b: the decoder
unquotes plus into space first, so the stored value is a b. -/
theorem roundtrip_plus_payload_counterexample :
    decodeDatagram (ascii "k=a+b&m=n") (chars "T4") =
      some [(chars "k", chars "a b"), (chars "m", chars "n"), (chars "date", chars "T4")] ∧
    dictGet [(chars "k", chars "a b"), (chars "m", chars "n"), (chars "date", chars "T4")]
      (chars "k") ≠ some (chars "a+b") := by
  decide

/-- C1 amended: for a payload k1=v1&k2=v2 whose keys and values are non-empty,
free of the equals, ampersand, plus and percent characters (so URL-decoding
leaves them unchanged), with distinct keys neither of which is the reserved
date key, decoding then storing appends exactly one document whose fields are
exactly k1 to v1, k2 to v2 and date to the injected timestamp, which matches
the fixed pattern YYYY-MM-DD HH:MM:SS.ffffff. -/
theorem roundtrip_two_pairs (db : List Doc) (data : List Nat)
    (k1 v1 k2 v2 : List Char) (t : PyDateTime)
    (hdec : utf8DecodeStrict data = some (k1 ++ '=' :: v1 ++ '&' :: (k2 ++ '=' :: v2)))
    (hk1 : k1 ≠ []) (hv1 : v1 ≠ []) (hk2 : k2 ≠ []) (hv2 : v2 ≠ [])
    (hc : ∀ l ∈ [k1, v1, k2, v2], '=' ∉ l ∧ '&' ∉ l ∧ '+' ∉ l ∧ '%' ∉ l)
    (hkk : k1 ≠ k2) (hd1 : k1 ≠ chars "date") (hd2 : k2 ≠ chars "date") :
    save_message_from_udp_data db data (strftimeFixed t) =
      db ++ [[(k1, v1), (k2, v2), (chars "date", strftimeFixed t)]] ∧
    matchesTimestampPattern (strftimeFixed t) = true := by
  have hck1 := hc k1 (by simp)
  have hcv1 := hc v1 (by simp)
  have hck2 := hc k2 (by simp)
  have hcv2 := hc v2 (by simp)
  have hef : encodeForm [(k1, v1), (k2, v2)] =
      k1 ++ '=' :: v1 ++ '&' :: (k2 ++ '=' :: v2) := by
    simp [encodeForm]
  have hcs : ∀ p ∈ [(k1, v1), (k2, v2)],
      ('=' ∉ p.1 ∧ '=' ∉ p.2 ∧ '&' ∉ p.1 ∧ '&' ∉ p.2) ∧
      ('+' ∉ p.1 ∧ '+' ∉ p.2 ∧ '%' ∉ p.1 ∧ '%' ∉ p.2) := by
    intro p hp
    rcases List.mem_cons.mp hp with h1 | h2
    · subst h1
      exact ⟨⟨hck1.1, hcv1.1, hck1.2.1, hcv1.2.1⟩,
        hck1.2.2.1, hcv1.2.2.1, hck1.2.2.2, hcv1.2.2.2⟩
    · have h3 : p = (k2, v2) := List.mem_singleton.mp h2
      subst h3
      exact ⟨⟨hck2.1, hcv2.1, hck2.2.1, hcv2.2.1⟩,
        hck2.2.2.1, hcv2.2.2.1, hck2.2.2.2, hcv2.2.2.2⟩
  have hplus : '+' ∉ encodeForm [(k1, v1), (k2, v2)] := by
    intro hm
    rcases mem_encodeForm _ '+' hm with h | h | ⟨p, hp, hmem⟩
    · exact absurd h (by decide)
    · exact absurd h (by decide)
    · rcases hmem with h1 | h2
      · exact ((hcs p hp).2.1) h1
      · exact ((hcs p hp).2.2.1) h2
  have hpct : '%' ∉ encodeForm [(k1, v1), (k2, v2)] := by
    intro hm
    rcases mem_encodeForm _ '%' hm with h | h | ⟨p, hp, hmem⟩
    · exact absurd h (by decide)
    · exact absurd h (by decide)
    · rcases hmem with h1 | h2
      · exact ((hcs p hp).2.2.2.1) h1
      · exact ((hcs p hp).2.2.2.2) h2
  have hid : unquote_plus (encodeForm [(k1, v1), (k2, v2)]) =
      encodeForm [(k1, v1), (k2, v2)] := unquote_plus_id _ hplus hpct
  have hpp : parsePairs (encodeForm [(k1, v1), (k2, v2)]) =
      some [(k1, v1), (k2, v2)] :=
    parsePairs_encodeForm _ (by simp) (fun p hp => (hcs p hp).1)
  have hdec2 : utf8DecodeStrict data = some (encodeForm [(k1, v1), (k2, v2)]) := by
    rw [hef]
    exact hdec
  have hdop : dictOfPairs [(k1, v1), (k2, v2)] = [(k1, v1), (k2, v2)] := by
    simp [dictOfPairs, dictInsert, hkk]
  have hins : dictInsert [(k1, v1), (k2, v2)] (chars "date") (strftimeFixed t) =
      [(k1, v1), (k2, v2), (chars "date", strftimeFixed t)] := by
    simp [dictInsert, hd1, hd2]
  have hdd : decodeDatagram data (strftimeFixed t) =
      some [(k1, v1), (k2, v2), (chars "date", strftimeFixed t)] := by
    simp only [decodeDatagram, hdec2, hid, hpp, hdop, hins]
  exact ⟨by simp only [save_message_from_udp_data, hdd], strftimeFixed_pattern t⟩

/-- C6: a GET for the root, with any query string appended, parses to the root
path, so the response is the same as for the bare root and always carries
status 200, a text/html content type and the bytes of the index template. -/
theorem get_root_ignores_query (fs : Fs) (mime : MimeMap) (baseDir q : List Char)
    (body : List Nat)
    (hidx : fs (joinpath (joinpath baseDir (chars "templates")) (chars "index.html")) =
      some (FsNode.file body)) :
    do_GET fs mime baseDir ('/' :: '?' :: q) = do_GET fs mime baseDir (chars "/") ∧
    do_GET fs mime baseDir ('/' :: '?' :: q) =
      some ⟨200, [(chars "Content-type", chars "text/html")], body⟩ := by
  have halpha : ('/' : Char).isAlpha = false := by decide
  have hs : splitScheme ('/' :: '?' :: q) = '/' :: '?' :: q := by
    have hpre : ('/' :: '?' :: q).takeWhile (fun c => c ≠ ':') =
        '/' :: ('?' :: q).takeWhile (fun c => c ≠ ':') := by
      simp [List.takeWhile_cons]
    simp [splitScheme, hpre, halpha]
  have hq : ('?' : Char) ≠ '/' := by decide
  have hn : stripNetloc ('/' :: '?' :: q) = '/' :: '?' :: q := by
    simp [stripNetloc, List.take, hq]
  have hpath : urlparsePath ('/' :: '?' :: q) = chars "/" := by
    have h1 : takeUntil '#' ('/' :: '?' :: q) = '/' :: '?' :: takeUntil '#' q := by
      simp [takeUntil]
    have h2 : takeUntil '?' ('/' :: '?' :: takeUntil '#' q) = ['/'] := by
      simp [takeUntil]
    rw [urlparsePath, hs, hn, h1, h2]
    decide
  have hroot : urlparsePath (chars "/") = chars "/" := by decide
  have e1 : do_GET fs mime baseDir ('/' :: '?' :: q) =
      some ⟨200, [(chars "Content-type", chars "text/html")], body⟩ := by
    simp [do_GET, hpath, send_html, hidx]
  have e2 : do_GET fs mime baseDir (chars "/") =
      some ⟨200, [(chars "Content-type", chars "text/html")], body⟩ := by
    simp [do_GET, hroot, send_html, hidx]
  exact ⟨e1.trans e2.symm, e1⟩

theorem get_root_ignores_query_witness :
    do_GET
        (fun p => if p = chars "/base/templates/index.html" then some (FsNode.file [7])
          else none)
        (fun _ => none) (chars "/base") ('/' :: '?' :: chars "a=b") =
      do_GET
        (fun p => if p = chars "/base/templates/index.html" then some (FsNode.file [7])
          else none)
        (fun _ => none) (chars "/base") (chars "/") ∧
    do_GET
        (fun p => if p = chars "/base/templates/index.html" then some (FsNode.file [7])
          else none)
        (fun _ => none) (chars "/base") ('/' :: '?' :: chars "a=b") =
      some ⟨200, [(chars "Content-type", chars "text/html")], [7]⟩ :=
  get_root_ignores_query _ _ (chars "/base") (chars "a=b") [7] (by decide)

/-- C7 counterexample: a GET for a path holding a directory: the path does not
resolve to an existing regular file, yet the response is not the 404 error
page even though the error template is present: Path.exists() is true for the
directory, so send_static emits the 200 status line and headers and open()
then raises IsADirectoryError, aborting the exchange with no complete
response at all. -/
theorem directory_request_counterexample :
    (fun p => if p = chars "/base/d" then some FsNode.dir
      else if p = chars "/base/templates/error.html" then some (FsNode.file [4])
      else none : Fs) (chars "/base/d") = some FsNode.dir ∧
    do_GET
      (fun p => if p = chars "/base/d" then some FsNode.dir
        else if p = chars "/base/templates/error.html" then some (FsNode.file [4])
        else none)
      (fun _ => none) (chars "/base") (chars "/d") = none := by
  decide

/-- C7 amended: for a GET whose request target is free of whitespace, control
and bracket characters (so urlparse applies no cleaning or validation) and
parses to a non-root path: a path resolving to nothing gets status 404 with
the error template body; a path holding a regular file is served with status
200, its bytes and a content type guessed from the name, text/plain by
default; a path holding a directory passes the exists() check but open()
raises after the 200 status line went out, so no complete response is
produced. -/
theorem get_static_404_boundary (fs : Fs) (mime : MimeMap) (baseDir url : List Char)
    (content errBody : List Nat)
    (hclean : ∀ c ∈ url, ' ' < c) (hlb : '[' ∉ url) (hrb : ']' ∉ url)
    (hroot : urlparsePath url ≠ chars "/") :
    (fs (joinpath baseDir ((urlparsePath url).drop 1)) = none →
      fs (joinpath (joinpath baseDir (chars "templates")) (chars "error.html")) =
        some (FsNode.file errBody) →
      do_GET fs mime baseDir url =
        some ⟨404, [(chars "Content-type", chars "text/html")], errBody⟩) ∧
    (fs (joinpath baseDir ((urlparsePath url).drop 1)) = some (FsNode.file content) →
      do_GET fs mime baseDir url = some ⟨200,
        [(chars "Content-type",
          (mime (joinpath baseDir ((urlparsePath url).drop 1))).getD (chars "text/plain"))],
        content⟩) ∧
    (fs (joinpath baseDir ((urlparsePath url).drop 1)) = some FsNode.dir →
      do_GET fs mime baseDir url = none) := by
  refine ⟨?_, ?_, ?_⟩
  · intro hmiss herr
    rw [List.drop_one] at hmiss
    simp [do_GET, if_neg hroot, hmiss, send_html, herr]
  · intro hhit
    rw [List.drop_one] at hhit
    simp [do_GET, if_neg hroot, hhit, send_static]
  · intro hdir
    rw [List.drop_one] at hdir
    simp [do_GET, if_neg hroot, hdir]

theorem get_static_404_boundary_witness :
    (do_GET
        (fun p => if p = chars "/base/templates/error.html" then some (FsNode.file [4])
          else none)
        (fun _ => none) (chars "/base") (chars "/does-not-exist") =
      some ⟨404, [(chars "Content-type", chars "text/html")], [4]⟩) ∧
    (do_GET (fun p => if p = chars "/base/style.css" then some (FsNode.file [9]) else none)
        (fun p => if p = chars "/base/style.css" then some (chars "text/css") else none)
        (chars "/base") (chars "/style.css") =
      some ⟨200, [(chars "Content-type", chars "text/css")], [9]⟩) ∧
    (do_GET (fun p => if p = chars "/base/sub" then some FsNode.dir else none)
        (fun _ => none) (chars "/base") (chars "/sub") = none) :=
  ⟨(get_static_404_boundary
      (fun p => if p = chars "/base/templates/error.html" then some (FsNode.file [4])
        else none)
      (fun _ => none) (chars "/base") (chars "/does-not-exist") [] [4]
      (by decide) (by decide) (by decide) (by decide)).1 (by decide) (by decide),
   (get_static_404_boundary
      (fun p => if p = chars "/base/style.css" then some (FsNode.file [9]) else none)
      (fun p => if p = chars "/base/style.css" then some (chars "text/css") else none)
      (chars "/base") (chars "/style.css") [9] []
      (by decide) (by decide) (by decide) (by decide)).2.1 (by decide),
   (get_static_404_boundary
      (fun p => if p = chars "/base/sub" then some FsNode.dir else none)
      (fun _ => none) (chars "/base") (chars "/sub") [] []
      (by decide) (by decide) (by decide) (by decide)).2.2 (by decide)⟩

theorem send_html_status (fs : Fs) (b f : List Char) (s : Nat) (r : HttpResponse)
    (h : send_html fs b f s = some r) : r.status = s := by
  cases hf : fs (joinpath (joinpath b (chars "templates")) f) with
  | none =>
    simp only [send_html, hf] at h
    exact absurd h (by simp)
  | some node =>
    cases node with
    | file content =>
      simp only [send_html, hf, Option.some.injEq] at h
      rw [← h]
    | dir =>
      simp only [send_html, hf] at h
      exact absurd h (by simp)

/-- C9: every response the handlers produce (for any GET and any POST) carries
status 200, 302 or 404; the client never observes any other status code, and
ingest failures never surface in the HTTP response. -/
theorem status_codes_closed :
    (∀ (fs : Fs) (mime : MimeMap) (baseDir url : List Char) (r : HttpResponse),
      do_GET fs mime baseDir url = some r →
      r.status = 200 ∨ r.status = 302 ∨ r.status = 404) ∧
    (∀ (cl : Option Nat) (body dg : List Nat) (r : HttpResponse),
      do_POST cl body = some (dg, r) →
      r.status = 200 ∨ r.status = 302 ∨ r.status = 404) := by
  constructor
  · intro fs mime baseDir url r h
    simp only [do_GET] at h
    by_cases hr : urlparsePath url = chars "/"
    · rw [if_pos hr] at h
      exact Or.inl (send_html_status _ _ _ _ _ h)
    · rw [if_neg hr] at h
      cases hf : fs (joinpath baseDir ((urlparsePath url).drop 1)) with
      | some node =>
        cases node with
        | file content =>
          rw [hf] at h
          simp only [Option.some.injEq] at h
          exact Or.inl (by rw [← h]; rfl)
        | dir =>
          rw [hf] at h
          exact absurd h (by simp)
      | none =>
        rw [hf] at h
        exact Or.inr (Or.inr (send_html_status _ _ _ _ _ h))
  · intro cl body dg r h
    simp only [do_POST] at h
    cases hd : utf8DecodeStrict (body.take (cl.getD 0)) with
    | none =>
      rw [hd] at h
      exact absurd h (by simp)
    | some text =>
      rw [hd] at h
      simp only [Option.some.injEq, Prod.mk.injEq] at h
      exact Or.inr (Or.inl (by rw [← h.2]))

theorem status_codes_closed_witness :
    ((⟨200, [(chars "Content-type", chars "text/plain")], [5]⟩ : HttpResponse).status = 200 ∨
      (⟨200, [(chars "Content-type", chars "text/plain")], [5]⟩ : HttpResponse).status = 302 ∨
      (⟨200, [(chars "Content-type", chars "text/plain")], [5]⟩ : HttpResponse).status = 404) ∧
    ((⟨302, [(chars "Location", chars "/")], []⟩ : HttpResponse).status = 200 ∨
      (⟨302, [(chars "Location", chars "/")], []⟩ : HttpResponse).status = 302 ∨
      (⟨302, [(chars "Location", chars "/")], []⟩ : HttpResponse).status = 404) :=
  ⟨status_codes_closed.1 (fun _ => some (FsNode.file [5])) (fun _ => none)
      (chars "/base") (chars "/file")
      ⟨200, [(chars "Content-type", chars "text/plain")], [5]⟩ (by decide),
    status_codes_closed.2 (some 3) (ascii "a=b") (ascii "a=b")
      ⟨302, [(chars "Location", chars "/")], []⟩ (by decide)⟩

theorem roundtrip_two_pairs_witness :
    save_message_from_udp_data [] (ascii "k1=v1&k2=v2")
        (strftimeFixed ⟨2024, 1, 2, 3, 4, 5, 6⟩) =
      [] ++ [[(chars "k1", chars "v1"), (chars "k2", chars "v2"),
        (chars "date", strftimeFixed ⟨2024, 1, 2, 3, 4, 5, 6⟩)]] ∧
    matchesTimestampPattern (strftimeFixed ⟨2024, 1, 2, 3, 4, 5, 6⟩) = true :=
  roundtrip_two_pairs [] (ascii "k1=v1&k2=v2") (chars "k1") (chars "v1")
    (chars "k2") (chars "v2") ⟨2024, 1, 2, 3, 4, 5, 6⟩
    (by decide) (by decide) (by decide) (by decide) (by decide)
    (by decide) (by decide) (by decide) (by decide)

theorem date_field_injected_witness :
    dictGet [(chars "a", chars "b"), (chars "date", strftimeFixed ⟨2024, 1, 2, 3, 4, 5, 6⟩)]
      (chars "date") = some (strftimeFixed ⟨2024, 1, 2, 3, 4, 5, 6⟩) ∧
    matchesTimestampPattern (strftimeFixed ⟨2024, 1, 2, 3, 4, 5, 6⟩) = true :=
  date_field_injected (ascii "a=b") ⟨2024, 1, 2, 3, 4, 5, 6⟩
    [(chars "a", chars "b"), (chars "date", strftimeFixed ⟨2024, 1, 2, 3, 4, 5, 6⟩)]
    (by decide)

/-- C5 counterexample: a POST whose declared one-byte body is the invalid text
byte 0xFF makes the body decode raise out of the handler, so no datagram is
sent and no response at all is produced, in particular no 302 redirect. -/
theorem post_invalid_body_counterexample :
    do_POST (some 1) [255] = none := by
  decide

/-- C5 amended: for every POST whose first Content-Length body bytes (zero
when the header is absent) decode as text, the handler sends exactly one UDP
datagram holding the re-encoding of that decoded text and responds with status
302 and a Location header equal to the root path. -/
theorem post_relays_and_redirects (contentLength : Option Nat) (body : List Nat)
    (text : List Char)
    (hdec : utf8DecodeStrict (body.take (contentLength.getD 0)) = some text) :
    do_POST contentLength body =
      some (utf8Encode text, ⟨302, [(chars "Location", chars "/")], []⟩) := by
  simp only [do_POST, hdec]

theorem post_relays_and_redirects_witness :
    do_POST (some 4) (ascii "a=bc") =
      some (utf8Encode (chars "a=bc"), ⟨302, [(chars "Location", chars "/")], []⟩) :=
  post_relays_and_redirects (some 4) (ascii "a=bc") (chars "a=bc") (by decide)

end Hw06
